import Mathlib

/-!
Verification of the text-preparation and synthesis-fallback logic of the
KittenTTS Flask application (`app.py`).

Strings are modelled as `List Char` of Unicode scalar values.  Python's
regular-expression class `\s` and `str.isspace`/`str.strip`/`str.split`
whitespace are modelled by `isPySpace` (the Unicode whitespace code points).
NFKD normalization (`unicodedata.normalize("NFKD", ·)`) is an external
Unicode-table function, so it is taken as an explicit function parameter
`nfkd`; the only property of it any theorem uses (that it is the identity
on ASCII-only strings) is stated as a hypothesis where needed.
-/

set_option maxHeartbeats 1000000
set_option maxRecDepth 100000

/-- Unicode whitespace code points, as matched by Python's regex `\s`
(for `str` patterns) and by `str.isspace` / no-argument `str.split` /
`str.strip`. -/
def isPySpace (c : Char) : Bool :=
  let n := c.toNat
  (9 ≤ n && n ≤ 13) || (28 ≤ n && n ≤ 32) || n == 133 || n == 160 ||
    n == 5760 || (8192 ≤ n && n ≤ 8202) || n == 8232 || n == 8233 ||
    n == 8239 || n == 8287 || n == 12288

/-- The character class `[A-Za-z0-9 .,!?;:'"()\-]` of
`_sanitize_text_for_model`'s keep-regex (code points:
space 32, `!` 33, `"` 34, `'` 39, `(` 40, `)` 41, `,` 44, `-` 45,
`.` 46, digits 48-57, `:` 58, `;` 59, `?` 63, `A-Z` 65-90, `a-z` 97-122). -/
def isAllowedChar (c : Char) : Bool :=
  let n := c.toNat
  (65 ≤ n && n ≤ 90) || (97 ≤ n && n ≤ 122) || (48 ≤ n && n ≤ 57) ||
    n == 32 || n == 33 || n == 34 || n == 39 || n == 40 || n == 41 ||
    n == 44 || n == 45 || n == 46 || n == 58 || n == 59 || n == 63

/-- Python `re.sub(r"\s+", " ", l)`: replace every maximal run of whitespace by a
single space.  The `Bool` argument records whether the previously emitted
character came from a whitespace run. -/
def collapseWsAux : Bool → List Char → List Char
  | _, [] => []
  | prevWs, c :: cs =>
    if isPySpace c then
      if prevWs then collapseWsAux true cs
      else ' ' :: collapseWsAux true cs
    else c :: collapseWsAux false cs

/-- Python `re.sub(r"\s+", " ", l)`. -/
def collapseWs (l : List Char) : List Char := collapseWsAux false l

/-- Remove trailing whitespace (the right half of Python `str.strip()`). -/
def rstripWs : List Char → List Char
  | [] => []
  | c :: cs =>
    match rstripWs cs with
    | [] => if isPySpace c then [] else [c]
    | r => c :: r

/-- Python `str.strip()`: drop leading and trailing whitespace. -/
def pyStrip (l : List Char) : List Char := rstripWs (l.dropWhile isPySpace)

/-- Helper for `pySplit`; `acc` is the current word, reversed. -/
def pySplitAux : List Char → List Char → List (List Char)
  | acc, [] => if acc = [] then [] else [acc.reverse]
  | acc, c :: cs =>
    if isPySpace c then
      if acc = [] then pySplitAux [] cs
      else acc.reverse :: pySplitAux [] cs
    else pySplitAux (c :: acc) cs

/-- Python no-argument `str.split()`: the whitespace-separated words, with
no empty strings. -/
def pySplit (l : List Char) : List (List Char) := pySplitAux [] l

/-- Sentence-final punctuation of the split regex `(?<=[.!?])\s+`. -/
def isSentEnd (c : Char) : Bool := c == '.' || c == '!' || c == '?'

/-- Does the reversed accumulator end (in original order) with `.`, `!`
or `?`, i.e. does the regex lookbehind `(?<=[.!?])` succeed here? -/
def sentEndHead : List Char → Bool
  | p :: _ => isSentEnd p
  | [] => false

/-- Python `re.split(r"(?<=[.!?])\s+", l)`: the first argument is `true` while
consuming a separator whitespace run, `acc` is the current piece reversed. -/
def splitSentAux : Bool → List Char → List Char → List (List Char)
  | _, acc, [] => [acc.reverse]
  | true, acc, c :: cs =>
    if isPySpace c then splitSentAux true acc cs
    else splitSentAux false (c :: acc) cs
  | false, acc, c :: cs =>
    if isPySpace c && sentEndHead acc then acc.reverse :: splitSentAux true [] cs
    else splitSentAux false (c :: acc) cs

/-- Python `re.split(r"(?<=[.!?])\s+", l)`. -/
def splitSentences (l : List Char) : List (List Char) := splitSentAux false [] l

/-- The word-level greedy packing loop of `_split_safe_chunks` (the
`len(sentence) > max_len` branch): `temp` is the running buffer. -/
def packWords (n : Nat) : List Char → List (List Char) → List (List Char)
  | temp, [] => if temp = [] then [] else [temp]
  | temp, w :: rest =>
    let candidate := pyStrip (temp ++ ' ' :: w)
    if candidate.length ≤ n then packWords n candidate rest
    else (if temp = [] then [] else [temp]) ++ packWords n w rest

/-- The sentence loop of `_split_safe_chunks`: `current` is the running
sentence buffer.  An over-long sentence is word-packed and its chunks are
appended immediately, while `current` is left untouched (exactly as in the
source). -/
def packSentences (n : Nat) : List Char → List (List Char) → List (List Char)
  | current, [] => if current = [] then [] else [current]
  | current, s :: ss =>
    let s' := pyStrip s
    if s' = [] then packSentences n current ss
    else if n < s'.length then
      packWords n [] (pySplit s') ++ packSentences n current ss
    else
      let candidate := pyStrip (current ++ ' ' :: s')
      if candidate.length ≤ n then packSentences n candidate ss
      else (if current = [] then [] else [current]) ++ packSentences n s' ss

/-- Constant `SAFE_CHUNK_LEN`. -/
def SAFE_CHUNK_LEN : Nat := 180

/-- Function `_split_safe_chunks(text, max_len=SAFE_CHUNK_LEN)`. -/
def split_safe_chunks (text : List Char) (maxLen : Nat) :
    List (List Char) :=
  if text.length ≤ maxLen then [text]
  else
    match packSentences maxLen [] (splitSentences text) with
    | [] => [text.take maxLen]
    | cs => cs

/-- Function `_normalize_input_text`. -/
def normalize_input_text (text : List Char) : List Char :=
  pyStrip (collapseWs text)

/-- Function `_sanitize_text_for_model`, parameterized by the NFKD normalization
function `nfkd` (an external Unicode-table function): NFKD-normalize,
keep only ASCII code points (`encode("ascii", "ignore")`), replace `\n`
by a space, replace every character outside the allowed class by a space,
collapse whitespace runs, and strip. -/
def sanitize_text_for_model (nfkd : List Char → List Char) (text : List Char) :
    List Char :=
  let ascii1 := (nfkd text).filter (fun c => c.toNat < 128)
  let ascii2 := ascii1.map (fun c => if c = '\n' then ' ' else c)
  let ascii3 := ascii2.map (fun c => if isAllowedChar c then c else ' ')
  pyStrip (collapseWs ascii3)

/-- Python `" ".join(chunks)`. -/
def joinSpace (ls : List (List Char)) : List Char :=
  List.intercalate [' '] ls

/-- Outcome of one call to `model.generate(text, voice=voice, speed=speed)`:
either an exception of type `E`, or a returned value — `none` models Python
`None`, `some samples` models a numpy array with the given samples
(`size` is the list length). -/
inductive GenResult (E A : Type) where
  | raise (e : E)
  | ret (a : Option (List A))
deriving DecidableEq

/-- The two `ValueError`s `_synthesize_audio_safe` can raise, each chaining
the original direct-synthesis failure as cause (`raise ... from first_error`). -/
inductive SynthError (E : Type) where
  | unsupportedChars (cause : E)
  | couldNotSynthesize (cause : E)
deriving DecidableEq

/-- Function `_synthesize_audio_safe(model, text, voice, speed)`.  `gen` is the
model's `generate`; `V` is the abstract type of the voice argument.
Stages: direct call; on exception sanitize (empty → unsupported-characters
error); if the sanitized text differs, retry once; then synthesize the
safe chunks independently, keeping non-`None` results of positive size;
concatenate survivors or raise the terminal error. -/
def synthesize_audio_safe {E A V : Type}
    (gen : List Char → V → ℚ → GenResult E A)
    (nfkd : List Char → List Char)
    (text : List Char) (voice : V) (speed : ℚ) :
    Except (SynthError E) (Option (List A)) :=
  match gen text voice speed with
  | .ret a => .ok a
  | .raise firstError =>
    let sanitized := sanitize_text_for_model nfkd text
    if sanitized = [] then .error (.unsupportedChars firstError)
    else
      let retry : Option (Option (List A)) :=
        if sanitized ≠ text then
          match gen sanitized voice speed with
          | .ret a => some a
          | .raise _ => none
        else none
      match retry with
      | some a => .ok a
      | none =>
        let chunkAudios :=
          (split_safe_chunks sanitized SAFE_CHUNK_LEN).filterMap fun chunk =>
            match gen chunk voice speed with
            | .ret (some audio) => if 0 < audio.length then some audio else none
            | .ret none => none
            | .raise _ => none
        if chunkAudios.isEmpty then .error (.couldNotSynthesize firstError)
        else .ok (some chunkAudios.flatten)

/-- The texts passed to `model.generate`, in order, during
`_synthesize_audio_safe` (same control flow as `synthesize_audio_safe`). -/
def synthesize_audio_safe_calls {E A V : Type}
    (gen : List Char → V → ℚ → GenResult E A)
    (nfkd : List Char → List Char)
    (text : List Char) (voice : V) (speed : ℚ) : List (List Char) :=
  match gen text voice speed with
  | .ret _ => [text]
  | .raise _ =>
    let sanitized := sanitize_text_for_model nfkd text
    if sanitized = [] then [text]
    else if sanitized ≠ text then
      match gen sanitized voice speed with
      | .ret _ => [text, sanitized]
      | .raise _ => text :: sanitized :: split_safe_chunks sanitized SAFE_CHUNK_LEN
    else text :: split_safe_chunks sanitized SAFE_CHUNK_LEN

/-- A JSON value as found in the parsed request body (`request.get_json`).
`jarr`/`jobj` stand for any array/object value (their contents are never
inspected by the validation code). -/
inductive JsonVal where
  | jstr (s : List Char)
  | jnum (q : ℚ)
  | jbool (b : Bool)
  | jnull
  | jarr
  | jobj
deriving DecidableEq

/-- The parsed JSON request body, when it is a dict: each field is present
with some JSON value or absent (`data.get` then supplies the default). -/
structure Body where
  text? : Option JsonVal
  voice? : Option JsonVal
  speed? : Option JsonVal
deriving DecidableEq

/-- Constant `AVAILABLE_VOICES`. -/
def AVAILABLE_VOICES : List (List Char) :=
  ["Bella", "Jasper", "Luna", "Bruno", "Rosie", "Hugo", "Kiki", "Leo"].map
    (fun s => s.toList)

/-- Python `voice in AVAILABLE_VOICES`: true exactly for strings equal to
one of the eight voice names (`==` between a non-string and a string is
`False`). -/
def voiceOk : JsonVal → Bool
  | .jstr s => AVAILABLE_VOICES.contains s
  | _ => false

/-- Python `float(x)` applied to the speed field: a number is returned as is, a
string goes through the caller-supplied parser `floatOfStr` (`none` models
`ValueError`), a bool is numeric (`float(True) == 1.0`), and `None`,
arrays and objects raise `TypeError` (`none`). -/
def pyFloat (floatOfStr : List Char → Option ℚ) : JsonVal → Option ℚ
  | .jnum q => some q
  | .jstr s => floatOfStr s
  | .jbool b => some (if b then 1 else 0)
  | .jnull => none
  | .jarr => none
  | .jobj => none

/-- The default voice `'Jasper'` of `data.get('voice', 'Jasper')`. -/
def jasper : List Char := "Jasper".toList

/-- The validation error a generate endpoint reports.  `typeError` models
a `TypeError` escaping from `_normalize_input_text` on a non-string text
field (it is caught by the endpoint's outer handler, yielding a 500
rather than a 400). -/
inductive VError where
  | invalidJson
  | typeError
  | speedNotNumber
  | textRequired
  | textTooLong
  | invalidVoice (v : JsonVal)
  | speedOutOfRange
deriving DecidableEq

/-- The values an endpoint passes on to synthesis after validation. -/
structure Validated where
  text : List Char
  voice : JsonVal
  speed : ℚ
deriving DecidableEq

/-- Constant `MAX_TEXT_LEN`. -/
def MAX_TEXT_LEN : Nat := 1000

/-- The validation block of `generate_audio` (`/api/generate`, lines
148-169): reject a non-dict payload; normalize the text field (default
`''`); default the voice to `'Jasper'`; convert the speed field (default
`1.0`) with `float`; then check text non-empty, text length, voice
membership and the speed range `[0.5, 2.0]`, in that order. -/
def validate_generate (floatOfStr : List Char → Option ℚ) :
    Option Body → Except VError Validated
  | none => .error .invalidJson
  | some d =>
    match d.text?.getD (.jstr []) with
    | .jstr t =>
      let text := normalize_input_text t
      let voice := d.voice?.getD (.jstr jasper)
      match pyFloat floatOfStr (d.speed?.getD (.jnum 1)) with
      | none => .error .speedNotNumber
      | some speed =>
        if text = [] then .error .textRequired
        else if MAX_TEXT_LEN < text.length then .error .textTooLong
        else if voiceOk voice = false then .error (.invalidVoice voice)
        else if speed < 1/2 ∨ 2 < speed then .error .speedOutOfRange
        else .ok ⟨text, voice, speed⟩
    | _ => .error .typeError

/-- The validation block of `generate_audio_stream` (`/api/generate-stream`,
lines 198-219), transcribed from its own copy of the code. -/
def validate_generate_stream (floatOfStr : List Char → Option ℚ) :
    Option Body → Except VError Validated
  | none => .error .invalidJson
  | some d =>
    match d.text?.getD (.jstr []) with
    | .jstr t =>
      let text := normalize_input_text t
      let voice := d.voice?.getD (.jstr jasper)
      match pyFloat floatOfStr (d.speed?.getD (.jnum 1)) with
      | none => .error .speedNotNumber
      | some speed =>
        if text = [] then .error .textRequired
        else if MAX_TEXT_LEN < text.length then .error .textTooLong
        else if voiceOk voice = false then .error (.invalidVoice voice)
        else if speed < 1/2 ∨ 2 < speed then .error .speedOutOfRange
        else .ok ⟨text, voice, speed⟩
    | _ => .error .typeError

/-- The HTTP response of a generate endpoint: a 400 JSON error, a 500 from
the `TypeError` on a non-string text, a 500 from a synthesis failure, a WAV
attachment (`/api/generate`), or the JSON + base64 payload
(`/api/generate-stream`). -/
inductive Response (E A : Type) where
  | clientError (e : VError)
  | serverTypeError
  | serverError (e : SynthError E)
  | wav (audio : Option (List A)) (voice : JsonVal)
  | jsonAudio (audio : Option (List A)) (text : List Char) (voice : JsonVal)
deriving DecidableEq

/-- The `/api/generate` endpoint: validate, then synthesize with
`_synthesize_audio_safe` and return the WAV download. -/
def generate_audio {E A : Type} (floatOfStr : List Char → Option ℚ)
    (gen : List Char → JsonVal → ℚ → GenResult E A)
    (nfkd : List Char → List Char) (data : Option Body) : Response E A :=
  match validate_generate floatOfStr data with
  | .error .typeError => .serverTypeError
  | .error e => .clientError e
  | .ok v =>
    match synthesize_audio_safe gen nfkd v.text v.voice v.speed with
    | .error se => .serverError se
    | .ok audio => .wav audio v.voice

/-- The `/api/generate-stream` endpoint: validate, then synthesize and
return the base64 JSON payload. -/
def generate_audio_stream {E A : Type} (floatOfStr : List Char → Option ℚ)
    (gen : List Char → JsonVal → ℚ → GenResult E A)
    (nfkd : List Char → List Char) (data : Option Body) : Response E A :=
  match validate_generate_stream floatOfStr data with
  | .error .typeError => .serverTypeError
  | .error e => .clientError e
  | .ok v =>
    match synthesize_audio_safe gen nfkd v.text v.voice v.speed with
    | .error se => .serverError se
    | .ok audio => .jsonAudio audio v.text v.voice

/-- The speed the endpoints obtain from the body: `float(data.get('speed', 1.0))`. -/
def speedVal (floatOfStr : List Char → Option ℚ) : Option Body → Option ℚ
  | none => none
  | some d => pyFloat floatOfStr (d.speed?.getD (.jnum 1))

/-- The validation steps that precede the speed-range check all pass:
the payload is a dict, the text field is a string whose normalization is
non-empty and within `MAX_TEXT_LEN`, and the voice (after defaulting)
is one of `AVAILABLE_VOICES`. -/
def earlier_checks_pass (data : Option Body) : Prop :=
  ∃ d t, data = some d ∧ d.text?.getD (.jstr []) = .jstr t ∧
    normalize_input_text t ≠ [] ∧
    (normalize_input_text t).length ≤ MAX_TEXT_LEN ∧
    voiceOk (d.voice?.getD (.jstr jasper)) = true

/-- The response is an error response produced before synthesis: a 400
validation error or the 500 caused by a non-string text field. -/
def isErrorResponse {E A : Type} : Response E A → Prop
  | .clientError _ => True
  | .serverTypeError => True
  | _ => False

/-! ### Character-class facts -/

theorem allowed_space : isAllowedChar ' ' = true := by decide

theorem allowed_lt_128 {c : Char} (h : isAllowedChar c = true) : c.toNat < 128 := by
  simp only [isAllowedChar, Bool.or_eq_true, Bool.and_eq_true, decide_eq_true_eq,
    Nat.beq_eq_true_eq] at h
  omega

theorem allowed_not_newline {c : Char} (h : isAllowedChar c = true) : ¬ c = '\n' := by
  intro hc
  subst hc
  exact absurd h (by decide)

/-! ### Membership through the string-cleaning stages -/

theorem mem_dropWhile {p : Char → Bool} {a : Char} {l : List Char}
    (h : a ∈ List.dropWhile p l) : a ∈ l := by
  induction l with
  | nil => simp at h
  | cons c cs ih =>
    rw [List.dropWhile_cons] at h
    split at h
    · exact List.mem_cons_of_mem _ (ih h)
    · exact h

theorem mem_rstripWs {a : Char} {l : List Char} (h : a ∈ rstripWs l) : a ∈ l := by
  induction l with
  | nil => simp [rstripWs] at h
  | cons c cs ih =>
    rw [rstripWs] at h
    cases hr : rstripWs cs with
    | nil =>
      rw [hr] at h
      by_cases hc : isPySpace c
      · simp [hc] at h
      · simp only [hc, if_neg, Bool.false_eq_true, ite_false, List.mem_singleton] at h
        simp [h]
    | cons x xs =>
      rw [hr] at h
      rcases List.mem_cons.mp h with h | h
      · simp [h]
      · exact List.mem_cons_of_mem _ (ih (hr ▸ h))

theorem mem_pyStrip {a : Char} {l : List Char} (h : a ∈ pyStrip l) : a ∈ l :=
  mem_dropWhile (mem_rstripWs h)

theorem mem_collapseWsAux {a : Char} {l : List Char} {b : Bool}
    (h : a ∈ collapseWsAux b l) : a ∈ l ∨ a = ' ' := by
  induction l generalizing b with
  | nil => simp [collapseWsAux] at h
  | cons c cs ih =>
    rw [collapseWsAux] at h
    split at h
    · split at h
      · rcases ih h with h' | h'
        · exact Or.inl (List.mem_cons_of_mem _ h')
        · exact Or.inr h'
      · rcases List.mem_cons.mp h with h' | h'
        · exact Or.inr h'
        · rcases ih h' with h'' | h''
          · exact Or.inl (List.mem_cons_of_mem _ h'')
          · exact Or.inr h''
    · rcases List.mem_cons.mp h with h' | h'
      · exact Or.inl (by simp [h'])
      · rcases ih h' with h'' | h''
        · exact Or.inl (List.mem_cons_of_mem _ h'')
        · exact Or.inr h''

theorem ws_mem_collapseWsAux {a : Char} {l : List Char} {b : Bool}
    (h : a ∈ collapseWsAux b l) (hws : isPySpace a = true) : a = ' ' := by
  induction l generalizing b with
  | nil => simp [collapseWsAux] at h
  | cons c cs ih =>
    rw [collapseWsAux] at h
    split at h
    · split at h
      · exact ih h
      · rcases List.mem_cons.mp h with h' | h'
        · exact h'
        · exact ih h'
    · rcases List.mem_cons.mp h with h' | h'
      · subst h'
        simp_all
      · exact ih h'

/-! ### Whitespace-shape predicates -/

/-- The first character, if any, is not whitespace. -/
def headNotWs (l : List Char) : Prop :=
  ∀ c, l.head? = some c → isPySpace c = false

/-- No two adjacent characters are both whitespace. -/
def noDoubleWs : List Char → Prop
  | [] => True
  | [_] => True
  | a :: b :: rest => (isPySpace a = false ∨ isPySpace b = false) ∧ noDoubleWs (b :: rest)

theorem noDoubleWs_tail {c : Char} {l : List Char} (h : noDoubleWs (c :: l)) :
    noDoubleWs l := by
  cases l with
  | nil => trivial
  | cons x xs => exact h.2

theorem noDoubleWs_cons_head {c : Char} {l : List Char} (hc : isPySpace c = false)
    (hl : noDoubleWs l) : noDoubleWs (c :: l) := by
  cases l with
  | nil => trivial
  | cons x xs => exact ⟨Or.inl hc, hl⟩

theorem noDoubleWs_cons_next {c : Char} {l : List Char} (hh : headNotWs l)
    (hl : noDoubleWs l) : noDoubleWs (c :: l) := by
  cases l with
  | nil => trivial
  | cons x xs => exact ⟨Or.inr (hh x rfl), hl⟩

theorem noDoubleWs_head_of {a : Char} {l : List Char} (h : noDoubleWs (a :: l))
    (ha : isPySpace a = true) : headNotWs l := by
  cases l with
  | nil => intro c hc; simp at hc
  | cons x xs =>
    intro c hc
    simp only [List.head?_cons, Option.some.injEq] at hc
    subst hc
    rcases h.1 with h' | h'
    · rw [ha] at h'; exact absurd h' (by simp)
    · exact h'

/-! ### Shape of `collapseWs` output -/

theorem collapse_head (l : List Char) : headNotWs (collapseWsAux true l) := by
  induction l with
  | nil => intro c hc; simp [collapseWsAux] at hc
  | cons c cs ih =>
    intro a ha
    rw [collapseWsAux] at ha
    split at ha
    · exact ih a ha
    · simp only [List.head?_cons, Option.some.injEq] at ha
      subst ha
      simp_all

theorem collapse_noDouble (l : List Char) : ∀ b, noDoubleWs (collapseWsAux b l) := by
  induction l with
  | nil => intro b; simp [collapseWsAux]; trivial
  | cons c cs ih =>
    intro b
    rw [collapseWsAux]
    split
    · split
      · exact ih true
      · exact noDoubleWs_cons_next (collapse_head cs) (ih true)
    · exact noDoubleWs_cons_head (by simp_all) (ih false)

theorem noDouble_dropWhile {l : List Char} (h : noDoubleWs l) :
    noDoubleWs (List.dropWhile isPySpace l) := by
  induction l with
  | nil => simpa using h
  | cons c cs ih =>
    rw [List.dropWhile_cons]
    split
    · exact ih (noDoubleWs_tail h)
    · exact h

/-! ### Shape of `rstripWs` output -/

theorem head?_rstripWs (l : List Char) :
    rstripWs l = [] ∨ (rstripWs l).head? = l.head? := by
  cases l with
  | nil => exact Or.inl rfl
  | cons c cs =>
    rw [rstripWs]
    cases hr : rstripWs cs with
    | nil =>
      by_cases hc : isPySpace c
      · simp [hc]
      · simp [hc]
    | cons x xs => simp

theorem headNotWs_rstrip {l : List Char} (h : headNotWs l) : headNotWs (rstripWs l) := by
  rcases head?_rstripWs l with h' | h'
  · rw [h']; intro c hc; simp at hc
  · intro c hc; exact h c (h' ▸ hc)

theorem rstrip_noDouble {l : List Char} (h : noDoubleWs l) : noDoubleWs (rstripWs l) := by
  induction l with
  | nil => simpa [rstripWs] using h
  | cons c cs ih =>
    rw [rstripWs]
    cases hr : rstripWs cs with
    | nil =>
      by_cases hc : isPySpace c
      · simp only [hc, ite_true]
        trivial
      · simp only [hc, Bool.false_eq_true, ite_false]
        trivial
    | cons x xs =>
      have htail : noDoubleWs (x :: xs) := hr ▸ ih (noDoubleWs_tail h)
      rcases head?_rstripWs cs with h' | h'
      · rw [hr] at h'; exact absurd h' (by simp)
      · rw [hr] at h'
        cases cs with
        | nil => simp [rstripWs] at hr
        | cons y ys =>
          simp only [List.head?_cons, Option.some.injEq] at h'
          subst h'
          cases h.1 with
          | inl hc => exact ⟨Or.inl hc, htail⟩
          | inr hx => exact ⟨Or.inr hx, htail⟩

theorem rstrip_idem (l : List Char) : rstripWs (rstripWs l) = rstripWs l := by
  induction l with
  | nil => rfl
  | cons c cs ih =>
    conv_lhs => rw [rstripWs]
    conv_rhs => rw [rstripWs]
    cases hr : rstripWs cs with
    | nil =>
      by_cases hc : isPySpace c
      · simp [hc, rstripWs]
      · simp [hc, rstripWs]
    | cons x xs =>
      have hxs : rstripWs (x :: xs) = x :: xs := by
        rw [← hr, ih, hr]
      rw [rstripWs, hxs]

/-! ### `pyStrip` shape lemmas -/

theorem head_dropWhile (l : List Char) : headNotWs (List.dropWhile isPySpace l) := by
  induction l with
  | nil => intro c hc; simp at hc
  | cons c cs ih =>
    rw [List.dropWhile_cons]
    split
    · exact ih
    · intro a ha
      simp only [List.head?_cons, Option.some.injEq] at ha
      subst ha
      simp_all

theorem pyStrip_head (l : List Char) : headNotWs (pyStrip l) :=
  headNotWs_rstrip (head_dropWhile l)

theorem pyStrip_noDouble {l : List Char} (h : noDoubleWs l) : noDoubleWs (pyStrip l) :=
  rstrip_noDouble (noDouble_dropWhile h)

theorem dropWhile_eq_self_of_head {l : List Char} (h : headNotWs l) :
    List.dropWhile isPySpace l = l := by
  cases l with
  | nil => rfl
  | cons c cs =>
    rw [List.dropWhile_cons, if_neg]
    simp [h c rfl]

theorem pyStrip_idem (l : List Char) : pyStrip (pyStrip l) = pyStrip l := by
  show rstripWs (List.dropWhile isPySpace (pyStrip l)) = pyStrip l
  rw [dropWhile_eq_self_of_head (pyStrip_head l)]
  exact rstrip_idem _

/-! ### `collapseWs` fixed points -/

theorem collapse_eq_self {l : List Char}
    (honly : ∀ c ∈ l, isPySpace c = true → c = ' ')
    (hnd : noDoubleWs l) :
    ∀ b, (b = true → headNotWs l) → collapseWsAux b l = l := by
  induction l with
  | nil => intro b _; rfl
  | cons c cs ih =>
    intro b hb
    rw [collapseWsAux]
    by_cases hws : isPySpace c
    · cases b with
      | true =>
        have := hb rfl c rfl
        simp_all
      | false =>
        have hc : c = ' ' := honly c (by simp) hws
        have hcs : collapseWsAux true cs = cs :=
          ih (fun a ha hw => honly a (List.mem_cons_of_mem _ ha) hw)
            (noDoubleWs_tail hnd) true (fun _ => noDoubleWs_head_of hnd hws)
        rw [if_pos hws, if_neg (by simp), hcs, hc]
    · have hcs : collapseWsAux false cs = cs :=
        ih (fun a ha hw => honly a (List.mem_cons_of_mem _ ha) hw)
          (noDoubleWs_tail hnd) false (by simp)
      simp [hws, hcs]

/-- The composite `strip ∘ collapse` used by both `_normalize_input_text`
and `_sanitize_text_for_model` is idempotent. -/
theorem strip_collapse_idem (w : List Char) :
    pyStrip (collapseWs (pyStrip (collapseWs w))) = pyStrip (collapseWs w) := by
  have honly : ∀ c ∈ pyStrip (collapseWs w), isPySpace c = true → c = ' ' :=
    fun c hc hw => ws_mem_collapseWsAux (mem_pyStrip hc) hw
  have hnd : noDoubleWs (pyStrip (collapseWs w)) :=
    pyStrip_noDouble (collapse_noDouble w false)
  have hcol : collapseWs (pyStrip (collapseWs w)) = pyStrip (collapseWs w) :=
    collapse_eq_self honly hnd false (by simp)
  rw [hcol, pyStrip_idem]

/-! ### Helpers about `map` and `filter` fixed points -/

theorem map_eq_self_of {f : Char → Char} {l : List Char} (h : ∀ a ∈ l, f a = a) :
    l.map f = l := by
  induction l with
  | nil => rfl
  | cons c cs ih =>
    rw [List.map_cons, h c (by simp), ih (fun a ha => h a (List.mem_cons_of_mem _ ha))]

theorem filter_eq_self_of {p : Char → Bool} {l : List Char} (h : ∀ a ∈ l, p a = true) :
    l.filter p = l := by
  induction l with
  | nil => rfl
  | cons c cs ih =>
    rw [List.filter_cons, if_pos (h c (by simp)),
      ih (fun a ha => h a (List.mem_cons_of_mem _ ha))]

/-! ### Sanitize: character set and idempotence -/

theorem sanitize_allowed (nfkd : List Char → List Char) (x : List Char) :
    ∀ c ∈ sanitize_text_for_model nfkd x, isAllowedChar c = true := by
  intro c hc
  simp only [sanitize_text_for_model] at hc
  rcases mem_collapseWsAux (mem_pyStrip hc) with h | h
  · rcases List.mem_map.mp h with ⟨a, _, ha⟩
    by_cases haw : isAllowedChar a
    · rw [if_pos haw] at ha
      rw [← ha]
      exact haw
    · rw [if_neg haw] at ha
      rw [← ha]
      exact allowed_space
  · rw [h]
    exact allowed_space

theorem sanitize_fix_of_allowed {nfkd : List Char → List Char}
    (hn : ∀ l : List Char, (∀ c ∈ l, c.toNat < 128) → nfkd l = l)
    {y : List Char} (hall : ∀ c ∈ y, isAllowedChar c = true) :
    sanitize_text_for_model nfkd y = pyStrip (collapseWs y) := by
  simp only [sanitize_text_for_model]
  rw [hn y (fun c hc => allowed_lt_128 (hall c hc))]
  rw [filter_eq_self_of (fun a ha => by simp [allowed_lt_128 (hall a ha)])]
  rw [show y.map (fun c => if c = '\n' then ' ' else c) = y from
        map_eq_self_of (fun a ha => if_neg (allowed_not_newline (hall a ha)))]
  rw [show y.map (fun c => if isAllowedChar c then c else ' ') = y from
        map_eq_self_of (fun a ha => if_pos (hall a ha))]

theorem sanitize_idempotent (nfkd : List Char → List Char)
    (hn : ∀ l : List Char, (∀ c ∈ l, c.toNat < 128) → nfkd l = l) (x : List Char) :
    sanitize_text_for_model nfkd (sanitize_text_for_model nfkd x) =
      sanitize_text_for_model nfkd x := by
  have hall := sanitize_allowed nfkd x
  rw [sanitize_fix_of_allowed hn hall]
  show pyStrip (collapseWs (sanitize_text_for_model nfkd x)) = _
  simp only [sanitize_text_for_model]
  exact strip_collapse_idem _

/-! ### Chunking invariants -/

theorem pySplitAux_noWs :
    ∀ (l acc : List Char), (∀ c ∈ acc, isPySpace c = false) →
      ∀ w ∈ pySplitAux acc l, ∀ c ∈ w, isPySpace c = false := by
  intro l
  induction l with
  | nil =>
    intro acc hacc w hw
    rw [pySplitAux] at hw
    by_cases ha0 : acc = []
    · rw [if_pos ha0] at hw
      simp at hw
    · rw [if_neg ha0] at hw
      simp only [List.mem_singleton] at hw
      subst hw
      intro c hc
      exact hacc c (List.mem_reverse.mp hc)
  | cons c cs ih =>
    intro acc hacc w hw
    rw [pySplitAux] at hw
    by_cases hws : isPySpace c
    · rw [if_pos hws] at hw
      by_cases ha0 : acc = []
      · rw [if_pos ha0] at hw
        exact ih [] (by simp) w hw
      · rw [if_neg ha0] at hw
        rcases List.mem_cons.mp hw with hw' | hw'
        · subst hw'
          intro a ha
          exact hacc a (List.mem_reverse.mp ha)
        · exact ih [] (by simp) w hw'
    · rw [if_neg hws] at hw
      refine ih (c :: acc) ?_ w hw
      intro a ha
      rcases List.mem_cons.mp ha with ha' | ha'
      · subst ha'
        simp only [Bool.not_eq_true] at hws
        exact hws
      · exact hacc a ha'

theorem pySplit_noWs (l : List Char) :
    ∀ w ∈ pySplit l, ∀ c ∈ w, isPySpace c = false :=
  pySplitAux_noWs l [] (by simp)

theorem packWords_bound (n : Nat) :
    ∀ (words : List (List Char)) (temp : List Char),
      (temp = [] ∨ temp.length ≤ n ∨ ∀ c ∈ temp, isPySpace c = false) →
      (∀ w ∈ words, ∀ c ∈ w, isPySpace c = false) →
      ∀ ch ∈ packWords n temp words,
        ch.length ≤ n ∨ ∀ c ∈ ch, isPySpace c = false := by
  intro words
  induction words with
  | nil =>
    intro temp htemp _ ch hch
    rw [packWords] at hch
    by_cases h0 : temp = []
    · rw [if_pos h0] at hch
      simp at hch
    · rw [if_neg h0] at hch
      simp only [List.mem_singleton] at hch
      subst hch
      rcases htemp with h | h | h
      · exact absurd h h0
      · exact Or.inl h
      · exact Or.inr h
  | cons w rest ih =>
    intro temp htemp hwords ch hch
    simp only [packWords] at hch
    by_cases hc : (pyStrip (temp ++ ' ' :: w)).length ≤ n
    · rw [if_pos hc] at hch
      exact ih _ (Or.inr (Or.inl hc))
        (fun v hv => hwords v (List.mem_cons_of_mem _ hv)) ch hch
    · rw [if_neg hc] at hch
      rcases List.mem_append.mp hch with hch' | hch'
      · by_cases h0 : temp = []
        · rw [if_pos h0] at hch'
          simp at hch'
        · rw [if_neg h0] at hch'
          simp only [List.mem_singleton] at hch'
          subst hch'
          rcases htemp with h | h | h
          · exact absurd h h0
          · exact Or.inl h
          · exact Or.inr h
      · exact ih w (Or.inr (Or.inr (hwords w (by simp))))
          (fun v hv => hwords v (List.mem_cons_of_mem _ hv)) ch hch'

theorem packSentences_bound (n : Nat) :
    ∀ (ss : List (List Char)) (current : List Char),
      (current = [] ∨ current.length ≤ n) →
      ∀ ch ∈ packSentences n current ss,
        ch.length ≤ n ∨ ∀ c ∈ ch, isPySpace c = false := by
  intro ss
  induction ss with
  | nil =>
    intro current hcur ch hch
    rw [packSentences] at hch
    by_cases h0 : current = []
    · rw [if_pos h0] at hch
      simp at hch
    · rw [if_neg h0] at hch
      simp only [List.mem_singleton] at hch
      subst hch
      rcases hcur with h | h
      · exact absurd h h0
      · exact Or.inl h
  | cons s ss ih =>
    intro current hcur ch hch
    simp only [packSentences] at hch
    by_cases h0 : pyStrip s = []
    · rw [if_pos h0] at hch
      exact ih current hcur ch hch
    · rw [if_neg h0] at hch
      by_cases hlong : n < (pyStrip s).length
      · rw [if_pos hlong] at hch
        rcases List.mem_append.mp hch with hch' | hch'
        · exact packWords_bound n (pySplit (pyStrip s)) [] (Or.inl rfl)
            (pySplit_noWs (pyStrip s)) ch hch'
        · exact ih current hcur ch hch'
      · rw [if_neg hlong] at hch
        by_cases hcand : (pyStrip (current ++ ' ' :: pyStrip s)).length ≤ n
        · rw [if_pos hcand] at hch
          exact ih _ (Or.inr hcand) ch hch
        · rw [if_neg hcand] at hch
          rcases List.mem_append.mp hch with hch' | hch'
          · by_cases hc0 : current = []
            · rw [if_pos hc0] at hch'
              simp at hch'
            · rw [if_neg hc0] at hch'
              simp only [List.mem_singleton] at hch'
              subst hch'
              rcases hcur with h | h
              · exact absurd h hc0
              · exact Or.inl h
          · exact ih (pyStrip s) (Or.inr (by omega)) ch hch'

/-! ### The chunked synthesis stage -/

/-- The `chunk_audios` list collected by `_synthesize_audio_safe`'s chunk
loop: for each safe chunk, the model's output when the call returns a
non-`None` array of positive size; failed or empty chunks are skipped. -/
def chunk_stage_audios {E A V : Type} (gen : List Char → V → ℚ → GenResult E A)
    (sanitized : List Char) (voice : V) (speed : ℚ) : List (List A) :=
  (split_safe_chunks sanitized SAFE_CHUNK_LEN).filterMap fun chunk =>
    match gen chunk voice speed with
    | .ret (some audio) => if 0 < audio.length then some audio else none
    | .ret none => none
    | .raise _ => none

theorem synthesize_chunk_stage {E A V : Type}
    (gen : List Char → V → ℚ → GenResult E A) (nfkd : List Char → List Char)
    (text : List Char) (voice : V) (speed : ℚ) (e : E)
    (hg : gen text voice speed = .raise e)
    (hs : sanitize_text_for_model nfkd text ≠ [])
    (hretry : sanitize_text_for_model nfkd text = text ∨
      ∃ e', gen (sanitize_text_for_model nfkd text) voice speed = .raise e') :
    synthesize_audio_safe gen nfkd text voice speed =
      (if (chunk_stage_audios gen (sanitize_text_for_model nfkd text) voice speed).isEmpty
       then .error (.couldNotSynthesize e)
       else .ok (some (chunk_stage_audios gen
          (sanitize_text_for_model nfkd text) voice speed).flatten)) := by
  unfold synthesize_audio_safe chunk_stage_audios
  rw [hg]
  simp only [if_neg hs]
  have hret : (if sanitize_text_for_model nfkd text ≠ text then
      match gen (sanitize_text_for_model nfkd text) voice speed with
      | .ret a => some a
      | .raise _ => none
    else none) = (none : Option (Option (List A))) := by
    rcases hretry with h | ⟨e', h⟩
    · rw [if_neg (by simp [h])]
    · by_cases hne : sanitize_text_for_model nfkd text = text
      · rw [if_neg (by simp [hne])]
      · rw [if_pos hne, h]
  rw [hret]

/-! ### Validation lemmas -/

theorem validate_generate_speed_error (f : List Char → Option ℚ) (data : Option Body)
    (q : ℚ) (hq : speedVal f data = some q) (hout : q < 1/2 ∨ 2 < q) :
    ∃ e, validate_generate f data = .error e ∧
      validate_generate_stream f data = .error e := by
  cases data with
  | none => exact ⟨.invalidJson, rfl, rfl⟩
  | some d =>
    simp only [speedVal] at hq
    cases ht : d.text?.getD (.jstr []) with
    | jstr t =>
      by_cases h1 : normalize_input_text t = []
      · refine ⟨.textRequired, ?_, ?_⟩ <;>
          simp [validate_generate, validate_generate_stream, ht, hq, h1]
      · by_cases h2 : MAX_TEXT_LEN < (normalize_input_text t).length
        · refine ⟨.textTooLong, ?_, ?_⟩ <;>
            simp [validate_generate, validate_generate_stream, ht, hq, h1, h2]
        · by_cases h3 : voiceOk (d.voice?.getD (.jstr jasper)) = true
          · refine ⟨.speedOutOfRange, ?_, ?_⟩ <;>
            · simp only [validate_generate, validate_generate_stream, ht, hq]
              rw [if_neg h1, if_neg h2, if_neg (by simp [h3]), if_pos hout]
          · have h3' : voiceOk (d.voice?.getD (.jstr jasper)) = false := by
              revert h3
              cases voiceOk (d.voice?.getD (.jstr jasper)) <;> simp
            refine ⟨.invalidVoice (d.voice?.getD (.jstr jasper)), ?_, ?_⟩ <;>
            · simp only [validate_generate, validate_generate_stream, ht, hq]
              rw [if_neg h1, if_neg h2, if_pos h3']
    | jnum q' =>
      exact ⟨.typeError, by simp [validate_generate, ht], by
        simp [validate_generate_stream, ht]⟩
    | jbool b =>
      exact ⟨.typeError, by simp [validate_generate, ht], by
        simp [validate_generate_stream, ht]⟩
    | jnull =>
      exact ⟨.typeError, by simp [validate_generate, ht], by
        simp [validate_generate_stream, ht]⟩
    | jarr =>
      exact ⟨.typeError, by simp [validate_generate, ht], by
        simp [validate_generate_stream, ht]⟩
    | jobj =>
      exact ⟨.typeError, by simp [validate_generate, ht], by
        simp [validate_generate_stream, ht]⟩

theorem validate_generate_speed_range (f : List Char → Option ℚ) (data : Option Body)
    (q : ℚ) (hq : speedVal f data = some q) (hout : q < 1/2 ∨ 2 < q)
    (hok : earlier_checks_pass data) :
    validate_generate f data = .error .speedOutOfRange ∧
      validate_generate_stream f data = .error .speedOutOfRange := by
  obtain ⟨d, t, rfl, ht, h1, h2, h3⟩ := hok
  simp only [speedVal] at hq
  have h2' : ¬ MAX_TEXT_LEN < (normalize_input_text t).length := by omega
  constructor <;>
  · simp only [validate_generate, validate_generate_stream, ht, hq]
    rw [if_neg h1, if_neg h2', if_neg (by simp [h3]), if_pos hout]

theorem generate_audio_of_error {E A : Type} (f : List Char → Option ℚ)
    (gen : List Char → JsonVal → ℚ → GenResult E A) (nfkd : List Char → List Char)
    (data : Option Body) (e : VError) (h : validate_generate f data = .error e) :
    generate_audio f gen nfkd data =
      (if e = .typeError then .serverTypeError else .clientError e) := by
  cases e <;> simp [generate_audio, h]

theorem generate_audio_stream_of_error {E A : Type} (f : List Char → Option ℚ)
    (gen : List Char → JsonVal → ℚ → GenResult E A) (nfkd : List Char → List Char)
    (data : Option Body) (e : VError)
    (h : validate_generate_stream f data = .error e) :
    generate_audio_stream f gen nfkd data =
      (if e = .typeError then .serverTypeError else .clientError e) := by
  cases e <;> simp [generate_audio_stream, h]

/-! ## Claim C6: chunk length invariant -/

/-- Claim C6: every chunk emitted by `_split_safe_chunks` has length at most
`max_len`, except a chunk that is a single word (it contains no whitespace
at all) whose own length exceeds `max_len`. -/
theorem c6_chunk_length_invariant (text : List Char) (n : Nat) :
    ∀ ch ∈ split_safe_chunks text n,
      ch.length ≤ n ∨ ∀ c ∈ ch, isPySpace c = false := by
  intro ch h
  rw [split_safe_chunks] at h
  by_cases hlen : text.length ≤ n
  · rw [if_pos hlen] at h
    simp only [List.mem_singleton] at h
    subst h
    exact Or.inl hlen
  · rw [if_neg hlen] at h
    cases hp : packSentences n [] (splitSentences text) with
    | nil =>
      rw [hp] at h
      simp only [List.mem_singleton] at h
      subst h
      exact Or.inl (by simp)
    | cons c cs =>
      rw [hp] at h
      exact packSentences_bound n (splitSentences text) [] (Or.inl rfl) ch (hp ▸ h)

/-- Witness for C6 at a concrete input: the single 200-character word is an
over-long chunk containing no whitespace. -/
theorem c6_chunk_length_invariant_witness :
    List.replicate 200 'A' ∈ split_safe_chunks (List.replicate 200 'A') 180 ∧
    ((List.replicate 200 'A').length ≤ 180 ∨
      ∀ c ∈ List.replicate 200 'A', isPySpace c = false) :=
  ⟨by decide, c6_chunk_length_invariant (List.replicate 200 'A') 180
    (List.replicate 200 'A') (by decide)⟩

/-! ## Claim C9: the chunk list is never empty -/

/-- Claim C9: `_split_safe_chunks` always returns a non-empty list, and for
text within `max_len` it returns exactly `[text]`. -/
theorem c9_chunks_nonempty (text : List Char) (n : Nat) :
    split_safe_chunks text n ≠ [] ∧
      (text.length ≤ n → split_safe_chunks text n = [text]) := by
  constructor
  · rw [split_safe_chunks]
    by_cases h : text.length ≤ n
    · simp [h]
    · rw [if_neg h]
      cases hp : packSentences n [] (splitSentences text) <;> simp
  · intro h
    rw [split_safe_chunks, if_pos h]

/-- Witness for C9 at a concrete input. -/
theorem c9_chunks_nonempty_witness :
    ("ab".toList).length ≤ 180 ∧
    split_safe_chunks ("ab".toList) 180 = ["ab".toList] ∧
    split_safe_chunks ("ab".toList) 180 ≠ [] :=
  ⟨by decide, (c9_chunks_nonempty ("ab".toList) 180).2 (by decide),
    (c9_chunks_nonempty ("ab".toList) 180).1⟩

/-! ## Claim C2: the 200-identical-character scenario -/

/-- Claim C2 counterexample: on `"A"*200` with `max_len = 180` the function
does NOT return a 180-character chunk followed by a 20-character chunk. -/
theorem c2_counterexample :
    split_safe_chunks (List.replicate 200 'A') 180 ≠
      [List.replicate 180 'A', List.replicate 20 'A'] := by decide

/-- Claim C2 (amended): `"A"*200` is a single word with no whitespace, so
the word-level fallback emits it whole — one chunk equal to the entire
200-character input (per the single-long-word exception of 4.3). -/
theorem c2_single_chunk :
    split_safe_chunks (List.replicate 200 'A') 180 =
      [List.replicate 200 'A'] := by decide

/-! ## Claim C1: word order across chunks -/

/-- Concrete input for claim C1: a short sentence, then a 202-character
sentence made of two long words, then a short sentence. -/
def c1_text : List Char :=
  ("aa. ".toList ++ List.replicate 100 'b') ++
    (' ' :: List.replicate 100 'c') ++ ". dd".toList

/-- Claim C1 (code bug): `_split_safe_chunks` does not always preserve word
order.  On `c1_text` the joined chunks hold exactly the input's words (a
permutation) but not in the original order: the buffered first sentence
`"aa."` is appended after the word-packed chunks of the over-long second
sentence, because the word-packing branch appends to `chunks` without first
flushing `current`. -/
theorem c1_chunk_reorder :
    split_safe_chunks c1_text SAFE_CHUNK_LEN =
      [List.replicate 100 'b', List.replicate 100 'c' ++ ['.'], "aa. dd".toList] ∧
    pySplit c1_text =
      ["aa.".toList, List.replicate 100 'b',
        List.replicate 100 'c' ++ ['.'], "dd".toList] ∧
    pySplit (joinSpace (split_safe_chunks c1_text SAFE_CHUNK_LEN)) ≠ pySplit c1_text ∧
    (pySplit (joinSpace (split_safe_chunks c1_text SAFE_CHUNK_LEN))).Perm (pySplit c1_text) := by
  refine ⟨by decide, by decide, by decide, by decide⟩

/-! ## Claim C7: sanitize is idempotent and stays in the allowed set -/

/-- Claim C7: for any NFKD function that is the identity on ASCII-only
strings, `_sanitize_text_for_model` is idempotent, and its output contains
only characters of the allowed class. -/
theorem c7_sanitize_idempotent_allowed (nfkd : List Char → List Char)
    (hn : ∀ l : List Char, (∀ c ∈ l, c.toNat < 128) → nfkd l = l) (x : List Char) :
    sanitize_text_for_model nfkd (sanitize_text_for_model nfkd x) =
      sanitize_text_for_model nfkd x ∧
    ∀ c ∈ sanitize_text_for_model nfkd x, isAllowedChar c = true :=
  ⟨sanitize_idempotent nfkd hn x, sanitize_allowed nfkd x⟩

/-- Concrete input for the C7 witness. -/
def c7_input : List Char := "He said:  héllo,\n  world!".toList

/-- Witness for C7 with `nfkd = id` at a concrete input. -/
theorem c7_sanitize_idempotent_allowed_witness :
    (∀ l : List Char, (∀ c ∈ l, c.toNat < 128) → (fun l => l) l = l) ∧
    sanitize_text_for_model (fun l => l) c7_input = "He said: hllo, world!".toList ∧
    (sanitize_text_for_model (fun l => l)
        (sanitize_text_for_model (fun l => l) c7_input) =
        sanitize_text_for_model (fun l => l) c7_input ∧
      ∀ c ∈ sanitize_text_for_model (fun l => l) c7_input,
        isAllowedChar c = true) :=
  ⟨fun _ _ => rfl, by decide,
    c7_sanitize_idempotent_allowed (fun l => l) (fun _ _ => rfl) c7_input⟩

/-! ## Claim C4: empty sanitization fails immediately -/

/-- Claim C4: if the direct model call raises and sanitization yields the
empty string, `_synthesize_audio_safe` raises the unsupported-characters
error with the original failure as cause, and the model was called exactly
once (on the original text): no sanitized retry and no chunked synthesis. -/
theorem c4_unsupported_chars_no_retry {E A V : Type}
    (gen : List Char → V → ℚ → GenResult E A) (nfkd : List Char → List Char)
    (text : List Char) (voice : V) (speed : ℚ) (e : E)
    (hg : gen text voice speed = .raise e)
    (hs : sanitize_text_for_model nfkd text = []) :
    synthesize_audio_safe gen nfkd text voice speed =
      .error (.unsupportedChars e) ∧
    synthesize_audio_safe_calls gen nfkd text voice speed = [text] := by
  constructor
  · simp [synthesize_audio_safe, hg, hs]
  · simp [synthesize_audio_safe_calls, hg, hs]

/-- Model used in the C4 witness: every call raises. -/
def c4_gen : List Char → Unit → ℚ → GenResult Unit Unit := fun _ _ _ => .raise ()

/-- Witness for C4: the control character `\x01` sanitizes to the empty
string; the pipeline stops after the single direct call. -/
theorem c4_unsupported_chars_no_retry_witness :
    c4_gen ['\x01'] () 1 = .raise () ∧
    sanitize_text_for_model (fun l => l) ['\x01'] = [] ∧
    (synthesize_audio_safe c4_gen (fun l => l) ['\x01'] () 1 =
        .error (.unsupportedChars ()) ∧
      synthesize_audio_safe_calls c4_gen (fun l => l) ['\x01'] () 1 = [['\x01']]) :=
  ⟨rfl, by decide, c4_unsupported_chars_no_retry c4_gen (fun l => l)
    ['\x01'] () 1 () rfl (by decide)⟩

/-! ## Claim C5: outcome of the chunked stage -/

/-- Claim C5: when the chunked stage is reached (direct call raised,
sanitization non-empty, and no successful sanitized retry), the function
returns the concatenation of all successful chunk audios in chunk order if
at least one chunk produced audio, and otherwise raises the terminal
could-not-synthesize error with the original failure as cause. -/
theorem c5_chunked_stage_outcome {E A V : Type}
    (gen : List Char → V → ℚ → GenResult E A) (nfkd : List Char → List Char)
    (text : List Char) (voice : V) (speed : ℚ) (e : E)
    (hg : gen text voice speed = .raise e)
    (hs : sanitize_text_for_model nfkd text ≠ [])
    (hretry : sanitize_text_for_model nfkd text = text ∨
      ∃ e', gen (sanitize_text_for_model nfkd text) voice speed = .raise e') :
    (chunk_stage_audios gen (sanitize_text_for_model nfkd text) voice speed = [] →
      synthesize_audio_safe gen nfkd text voice speed =
        .error (.couldNotSynthesize e)) ∧
    (chunk_stage_audios gen (sanitize_text_for_model nfkd text) voice speed ≠ [] →
      synthesize_audio_safe gen nfkd text voice speed =
        .ok (some (chunk_stage_audios gen
          (sanitize_text_for_model nfkd text) voice speed).flatten)) := by
  rw [synthesize_chunk_stage gen nfkd text voice speed e hg hs hretry]
  constructor
  · intro h
    rw [if_pos (List.isEmpty_iff.mpr h)]
  · intro h
    rw [if_neg (by simp [List.isEmpty_iff, h])]

/-- Model used in the C5 witness: every call raises. -/
def c5_gen : List Char → Unit → ℚ → GenResult Unit Unit := fun _ _ _ => .raise ()

/-- Witness for C5: with text `"hi"` (clean, so no retry) and a model that
always raises, zero chunks succeed and the terminal error is raised. -/
theorem c5_chunked_stage_outcome_witness :
    c5_gen ("hi".toList) () 1 = .raise () ∧
    sanitize_text_for_model (fun l => l) ("hi".toList) ≠ [] ∧
    sanitize_text_for_model (fun l => l) ("hi".toList) = "hi".toList ∧
    chunk_stage_audios c5_gen (sanitize_text_for_model (fun l => l) ("hi".toList)) () 1 = [] ∧
    synthesize_audio_safe c5_gen (fun l => l) ("hi".toList) () 1 =
      .error (.couldNotSynthesize ()) :=
  ⟨rfl, by decide, by decide, by decide,
    (c5_chunked_stage_outcome c5_gen (fun l => l) ("hi".toList) () 1 () rfl
      (by decide) (Or.inl (by decide))).1 (by decide)⟩

/-! ## Claim C8: both endpoints validate identically -/

/-- Claim C8: the two endpoints apply the same validation to the request
body: for every parsed body (and every float parser), `generate_audio`'s
validation result — accepted values or rejection error — is equal to
`generate_audio_stream`'s. -/
theorem c8_endpoints_same_validation (f : List Char → Option ℚ) (data : Option Body) :
    validate_generate f data = validate_generate_stream f data := rfl

/-! ## Claim C3: out-of-range speed -/

/-- Body used in the C3 counterexample: empty text together with `speed=3.0`. -/
def c3_bad_body : Option Body := some ⟨some (.jstr []), none, some (.jnum 3)⟩

/-- Claim C3 counterexample: a request with `speed = 3.0` but empty text is
rejected with the text-required error, not a speed-range error (the text
check runs first), refuting the claim as universally stated. -/
theorem c3_counterexample :
    speedVal (fun _ => none) c3_bad_body = some 3 ∧
    ((3 : ℚ) < 1/2 ∨ (2 : ℚ) < 3) ∧
    generate_audio (E := Unit) (A := Unit) (fun _ => none)
      (fun _ _ _ => .ret none) (fun l => l) c3_bad_body =
      .clientError .textRequired ∧
    VError.textRequired ≠ VError.speedOutOfRange := by
  refine ⟨rfl, Or.inr (by norm_num), ?_, by decide⟩
  rfl

/-- Claim C3 (amended): every request whose speed value parses to a number
outside `[0.5, 2.0]` is rejected before any model invocation — the response
is an error response and is independent of the model — and the reported
error is the speed-range error whenever the earlier validation steps
(dict payload, string text, non-empty normalized text within the length
bound, valid voice) pass; otherwise an earlier validation error is
reported, still without invoking the model. -/
theorem c3_speed_reject_amended {E A : Type} (f : List Char → Option ℚ)
    (gen gen' : List Char → JsonVal → ℚ → GenResult E A)
    (nfkd nfkd' : List Char → List Char) (data : Option Body) (q : ℚ)
    (hq : speedVal f data = some q) (hout : q < 1/2 ∨ 2 < q) :
    (generate_audio f gen nfkd data = generate_audio f gen' nfkd' data ∧
      isErrorResponse (generate_audio f gen nfkd data) ∧
      generate_audio_stream f gen nfkd data =
        generate_audio_stream f gen' nfkd' data ∧
      isErrorResponse (generate_audio_stream f gen nfkd data)) ∧
    (earlier_checks_pass data →
      generate_audio f gen nfkd data = .clientError .speedOutOfRange ∧
      generate_audio_stream f gen nfkd data = .clientError .speedOutOfRange) := by
  obtain ⟨e, h1, h2⟩ := validate_generate_speed_error f data q hq hout
  refine ⟨⟨?_, ?_, ?_, ?_⟩, ?_⟩
  · rw [generate_audio_of_error f gen nfkd data e h1,
      generate_audio_of_error f gen' nfkd' data e h1]
  · rw [generate_audio_of_error f gen nfkd data e h1]
    split
    · trivial
    · trivial
  · rw [generate_audio_stream_of_error f gen nfkd data e h2,
      generate_audio_stream_of_error f gen' nfkd' data e h2]
  · rw [generate_audio_stream_of_error f gen nfkd data e h2]
    split
    · trivial
    · trivial
  · intro hok
    obtain ⟨hva, hvs⟩ := validate_generate_speed_range f data q hq hout hok
    constructor
    · rw [generate_audio_of_error f gen nfkd data _ hva, if_neg (by decide)]
    · rw [generate_audio_stream_of_error f gen nfkd data _ hvs, if_neg (by decide)]

/-- Body used in the C3 witness: valid text, default voice, `speed=3.0`. -/
def c3_body : Option Body := some ⟨some (.jstr ("hi".toList)), none, some (.jnum 3)⟩

/-- Witness for C3 (amended): on a well-formed body with `speed = 3.0`, both
hypotheses hold concretely and the endpoint answers the speed-range error. -/
theorem c3_speed_reject_amended_witness :
    speedVal (fun _ => none) c3_body = some 3 ∧
    ((3 : ℚ) < 1/2 ∨ (2 : ℚ) < 3) ∧
    earlier_checks_pass c3_body ∧
    generate_audio (E := Unit) (A := Unit) (fun _ => none)
      (fun _ _ _ => .ret none) (fun l => l) c3_body =
      .clientError .speedOutOfRange := by
  have hok : earlier_checks_pass c3_body :=
    ⟨⟨some (.jstr ("hi".toList)), none, some (.jnum 3)⟩, "hi".toList, rfl, rfl,
      by decide, by decide, by decide⟩
  refine ⟨rfl, Or.inr (by norm_num), hok, ?_⟩
  exact ((c3_speed_reject_amended (fun _ => none) (fun _ _ _ => .ret none)
    (fun _ _ _ => .ret none) (fun l => l) (fun l => l) c3_body 3 rfl
    (Or.inr (by norm_num))).2 hok).1

/-! ## Claim C10: defaults for missing fields -/

/-- Claim C10 counterexample: with text missing AND an unparseable speed
(`speed: null`), the request is rejected with the speed error, not the
text-required error — the `float` conversion runs before the text check. -/
theorem c10_counterexample :
    validate_generate (fun _ => none) (some ⟨none, none, some .jnull⟩) =
      .error .speedNotNumber ∧
    validate_generate_stream (fun _ => none) (some ⟨none, none, some .jnull⟩) =
      .error .speedNotNumber ∧
    VError.speedNotNumber ≠ VError.textRequired :=
  ⟨rfl, rfl, by decide⟩

/-- Claim C10 (amended): both endpoints treat a missing field exactly like
the explicit default — voice `'Jasper'` (which passes the voice check),
speed `1.0`, text `''` — and a body with text missing is rejected with the
text-required error provided the speed field parses as a number (an
unparseable speed is reported first). -/
theorem c10_defaults_amended (f : List Char → Option ℚ) (t v s : Option JsonVal)
    (q : ℚ) :
    (validate_generate f (some ⟨t, none, s⟩) =
        validate_generate f (some ⟨t, some (.jstr jasper), s⟩) ∧
      validate_generate_stream f (some ⟨t, none, s⟩) =
        validate_generate_stream f (some ⟨t, some (.jstr jasper), s⟩) ∧
      validate_generate f (some ⟨t, v, none⟩) =
        validate_generate f (some ⟨t, v, some (.jnum 1)⟩) ∧
      validate_generate_stream f (some ⟨t, v, none⟩) =
        validate_generate_stream f (some ⟨t, v, some (.jnum 1)⟩) ∧
      validate_generate f (some ⟨none, v, s⟩) =
        validate_generate f (some ⟨some (.jstr []), v, s⟩) ∧
      validate_generate_stream f (some ⟨none, v, s⟩) =
        validate_generate_stream f (some ⟨some (.jstr []), v, s⟩) ∧
      voiceOk (.jstr jasper) = true) ∧
    (pyFloat f (s.getD (.jnum 1)) = some q →
      validate_generate f (some ⟨none, v, s⟩) = .error .textRequired ∧
      validate_generate_stream f (some ⟨none, v, s⟩) = .error .textRequired) := by
  refine ⟨⟨rfl, rfl, rfl, rfl, rfl, rfl, by decide⟩, ?_⟩
  intro hq
  have hnil : normalize_input_text ([] : List Char) = [] := rfl
  constructor <;>
  · simp [validate_generate, validate_generate_stream, hq, hnil]

/-- Witness for C10 (amended) on the all-fields-missing body. -/
theorem c10_defaults_amended_witness :
    pyFloat (fun _ => none) ((none : Option JsonVal).getD (.jnum 1)) = some 1 ∧
    validate_generate (fun _ => none) (some ⟨none, none, none⟩) =
      .error .textRequired :=
  ⟨rfl, ((c10_defaults_amended (fun _ => none) none none none 1).2 rfl).1⟩
